import Mathlib

/-!
Verification of the semantic-search core of the vibe extension.

The TypeScript sources are shallowly embedded: JS strings become lists of
characters, JS numbers become rationals (reals where a square root is
taken), fallible code returns Except, and the module-level mutable state of
the embedding service becomes an explicit state record threaded through a
step function.  Each definition is translated from the named source
function; deviations forced by the embedding (for example modelling
Math.random by an external stream) are noted at the definition.
-/

/-! ## JS string primitives -/

/-- Whitespace test matching the JS regexes \s and String.trim for the
ASCII characters that occur in this development. -/
def jsWs (c : Char) : Bool :=
  c = ' ' || c = '\t' || c = '\n' || c = '\r' || c = '\x0b' || c = '\x0c'

/-- Model of String.prototype.trim: drop whitespace from both ends. -/
def trimJS (l : List Char) : List Char :=
  ((l.dropWhile jsWs).reverse.dropWhile jsWs).reverse

/-- Model of String.prototype.substring(a, b) for a less or equal b:
the characters at indices in [a, b).  Out-of-range indices clamp, as in
JS. -/
def substringJS (l : List Char) (a b : Nat) : List Char :=
  (l.drop a).take (b - a)

/-- Helper for collapseWs: the flag records whether the previous character
was whitespace, so that a run of whitespace contributes one space. -/
def collapseWsAux : List Char → Bool → List Char
  | [], _ => []
  | c :: cs, prevWs =>
    if jsWs c then
      if prevWs then collapseWsAux cs true else ' ' :: collapseWsAux cs true
    else c :: collapseWsAux cs false

/-- Model of text.replace(/\s+/g, ' '): every maximal run of whitespace
becomes a single space. -/
def collapseWs (l : List Char) : List Char :=
  collapseWsAux l false

/-- Model of String.prototype.lastIndexOf(' '): the last index holding a
space character, if any. -/
def lastIndexOfSpace : List Char → Option Nat
  | [] => none
  | c :: cs =>
    match lastIndexOfSpace cs with
    | some p => some (p + 1)
    | none => if c = ' ' then some 0 else none

/-! ## Embedding service: similarity (embedding-service.ts, cosineSimilarity) -/

/-- The running sum dotProduct of the loop in cosineSimilarity: sum of
a[i] * b[i].  The loop indexes both vectors by i up to a.length; it is
reached only after the equal-length check, where zipping is equivalent. -/
def dotProduct (a b : List ℚ) : ℚ :=
  ((a.zip b).map (fun p => p.1 * p.2)).sum

/-- The running sum normA (respectively normB) of the loop in
cosineSimilarity: sum of a[i] * a[i]. -/
def normSq (a : List ℚ) : ℚ :=
  (a.map (fun x => x * x)).sum

/-- Model of cosineSimilarity (embedding-service.ts).  Throws when the
lengths differ; returns exactly 0 when either accumulated squared norm is
zero; otherwise returns the dot product over the product of the square
roots of the squared norms.  JS float arithmetic is modelled by exact
arithmetic, with the final value in ℝ because of Math.sqrt. -/
noncomputable def cosineSimilarity (a b : List ℚ) : Except String ℝ :=
  if a.length ≠ b.length then
    .error "Vectors must have the same length"
  else if normSq a = 0 ∨ normSq b = 0 then
    .ok 0
  else
    .ok ((dotProduct a b : ℝ) / (Real.sqrt (normSq a) * Real.sqrt (normSq b)))

/-! ## Ranking (semantic-search.ts performSearch; part_009 SearchService.search) -/

/-- A page chunk as consumed by the ranking loops: its id keys the
embedding record, the text is carried along. -/
structure SChunk where
  id : String
  text : String
deriving DecidableEq

/-- The similarity threshold of performSearch and SearchService.search. -/
noncomputable def similarityThreshold : ℝ := 0.3

/-- The shared candidate loop of performSearch and SearchService.search:
for each chunk of the page, look up its stored embedding
(chunkEmbeddings[chunk.id]); skip the chunk when absent; compute
cosineSimilarity against the query embedding, skipping the chunk when that
throws (the loop catches per-chunk errors); keep the chunk with its score
when the score strictly exceeds the threshold. -/
noncomputable def rankCandidates (queryEmbedding : List ℚ) (pageChunks : List SChunk)
    (chunkEmbeddings : String → Option (List ℚ)) : List (SChunk × ℝ) :=
  pageChunks.filterMap (fun c =>
    (chunkEmbeddings c.id).bind (fun e =>
      (cosineSimilarity queryEmbedding e).toOption.bind (fun s =>
        if similarityThreshold < s then some (c, s) else none)))

/-- The order used by the sort comparator that subtracts a.similarity from
b.similarity: x precedes y when the score of x is at least that of y. -/
def scoreGE (x y : SChunk × ℝ) : Prop := y.2 ≤ x.2

noncomputable instance : DecidableRel scoreGE :=
  fun x y => (inferInstance : Decidable (y.2 ≤ x.2))

instance : IsTotal (SChunk × ℝ) scoreGE :=
  ⟨fun x y => (le_total y.2 x.2).imp id id⟩

instance : IsTrans (SChunk × ℝ) scoreGE :=
  ⟨fun _ _ _ hab hbc => le_trans hbc hab⟩

/-- Model of Array.prototype.sort with the descending-score comparator, as
an insertion sort (any comparator-correct sort agrees on the properties
proved here). -/
noncomputable def sortByScoreDesc (l : List (SChunk × ℝ)) : List (SChunk × ℝ) :=
  List.insertionSort scoreGE l

/-- The ranking step of performSearch (semantic-search.ts): filter by
threshold, sort by score descending, slice to the top 10. -/
noncomputable def performSearchRank (queryEmbedding : List ℚ) (pageChunks : List SChunk)
    (chunkEmbeddings : String → Option (List ℚ)) : List (SChunk × ℝ) :=
  (sortByScoreDesc (rankCandidates queryEmbedding pageChunks chunkEmbeddings)).take 10

/-- The ranking of SearchService.search (part_009): same filter and sort,
with no truncation. -/
noncomputable def searchServiceSearch (queryEmbedding : List ℚ) (pageChunks : List SChunk)
    (chunkEmbeddings : String → Option (List ℚ)) : List (SChunk × ℝ) :=
  sortByScoreDesc (rankCandidates queryEmbedding pageChunks chunkEmbeddings)

/-- Sortedness by nonincreasing score: every earlier element scores at
least as high as every later one. -/
def SortedDescBy (l : List (SChunk × ℝ)) : Prop :=
  List.Sorted scoreGE l

/-- Eleven chunks sharing one text, used to exercise SearchService.search
on more than ten above-threshold candidates. -/
def elevenChunks : List SChunk :=
  [⟨"c0", "t"⟩, ⟨"c1", "t"⟩, ⟨"c2", "t"⟩, ⟨"c3", "t"⟩, ⟨"c4", "t"⟩, ⟨"c5", "t"⟩,
   ⟨"c6", "t"⟩, ⟨"c7", "t"⟩, ⟨"c8", "t"⟩, ⟨"c9", "t"⟩, ⟨"c10", "t"⟩]

/-! ## Backend response coercion (embedding-service.ts,
generateEmbeddingViaBackground, response handling) -/

/-- Shape of a JS value found in the embedding or data field of a backend
response.  An arr is a plain Array of numbers; a typedBuf is a TypedArray
such as a Float32Array; an obj is a plain object whose data property, if
any, is the given field; prim is a truthy non-object primitive. -/
inductive JsField where
  | arr (l : List ℚ)
  | typedBuf (l : List ℚ)
  | obj (dataProp : Option JsField)
  | prim

/-- Model of Array.from(x.data or []) for an object-typed x: a TypedArray
has no data property, so it contributes the empty list; a plain object
yields the elements of its data property when that is an Array or a
TypedArray, and the empty list otherwise (Array.from of a plain object or
number is empty). -/
def dataPropElems : Option JsField → List ℚ
  | some (.arr l) => l
  | some (.typedBuf l) => l
  | _ => []

/-- Whether Array.isArray holds of an optional field. -/
def isJsArray : Option JsField → Bool
  | some (.arr _) => true
  | _ => false

/-- Whether the field is truthy and of object type (arrays, typed arrays
and plain objects are objects; primitives and absent fields are not). -/
def isJsObject : Option JsField → Bool
  | some (.arr _) => true
  | some (.typedBuf _) => true
  | some (.obj _) => true
  | _ => false

/-- The response-coercion block of generateEmbeddingViaBackground: accept
response.embedding when it is an Array; otherwise accept response.data
when it is an Array; otherwise, when response.embedding is a truthy
object, read Array.from of its data property (or []); otherwise throw the
format error.  A coerced array that is empty throws the empty-embedding
error. -/
def coerceEmbedding (embedding dataField : Option JsField) : Except String (List ℚ) :=
  let raw : Except String (List ℚ) :=
    match embedding with
    | some (.arr l) => .ok l
    | _ =>
      match dataField with
      | some (.arr l) => .ok l
      | _ =>
        match embedding with
        | some (.typedBuf _) => .ok []
        | some (.obj d) => .ok (dataPropElems d)
        | _ => .error "Invalid embedding format received"
  match raw with
  | .error e => .error e
  | .ok l => if l.length = 0 then .error "Received empty embedding" else .ok l

/-! ## Embedding provider state machine (embedding-service.ts:
getCacheKey, generateEmbedding, getEmbeddingModel,
generateEmbeddingViaBackground) -/

/-- The model identifier MODEL_ID of the embedding service. -/
def MODEL_ID : String := "Xenova/all-MiniLM-L6-v2"

/-- Model of getCacheKey: the model id, a colon, and the first 100
characters of the text with whitespace runs collapsed to single spaces
(text.slice(0, 100).replace of whitespace runs by a space). -/
def getCacheKey (text : List Char) : List Char :=
  MODEL_ID.data ++ ':' :: collapseWs (text.take 100)

/-- The module-level mutable state of the embedding service, made
explicit, together with two instrumentation counters: remoteCalls counts
GENERATE_EMBEDDING message exchanges with the background backend (the
offscreen host runs its model once per such message and keeps no cache),
and localCalls counts invocations of the content-script model. -/
structure EmbedState where
  checkedBackgroundModel : Bool
  isBackgroundModelAvailable : Bool
  isUsingBackgroundModel : Bool
  modelLoaded : Bool
  cache : List (List Char × List ℚ)
  remoteCalls : Nat
  localCalls : Nat
deriving DecidableEq

/-- Lookup in the embedding cache record; the most recent write for a key
shadows older ones, as assignment to a JS record field does. -/
def lookupCache (k : List Char) : List (List Char × List ℚ) → Option (List ℚ)
  | [] => none
  | (k2, v) :: rest => if k = k2 then some v else lookupCache k rest

/-- A backend reply object: its optional error field and the embedding and
data fields consumed by the coercion block. -/
structure EmbResponse where
  error : Option String
  embedding : Option JsField
  data : Option JsField

/-- Outcome of one GENERATE_EMBEDDING message exchange: either the channel
itself fails (chrome.runtime.lastError) or a reply object arrives. -/
inductive RemoteOutcome where
  | channelError (msg : String)
  | reply (r : EmbResponse)

/-- Model of generateEmbeddingViaBackground: send the message (counted);
on a channel error, on a reply carrying an error field, or on a reply
whose coercion fails, clear both background flags and reject; otherwise
resolve the coerced array.  The result is never written to the local
cache. -/
def viaBackground (o : RemoteOutcome) (s : EmbedState) :
    Except String (List ℚ) × EmbedState :=
  let s1 := { s with remoteCalls := s.remoteCalls + 1 }
  match o with
  | .channelError m =>
    (.error m,
      { s1 with isUsingBackgroundModel := false, isBackgroundModelAvailable := false })
  | .reply r =>
    match r.error with
    | some m =>
      (.error m,
        { s1 with isUsingBackgroundModel := false, isBackgroundModelAvailable := false })
    | none =>
      match coerceEmbedding r.embedding r.data with
      | .ok arr => (.ok arr, s1)
      | .error e =>
        (.error e,
          { s1 with isUsingBackgroundModel := false, isBackgroundModelAvailable := false })

/-- Whether a remote exchange fails (channel error, reply with an error
field, or a reply whose coercion fails). -/
def remoteFails (o : RemoteOutcome) : Bool :=
  match o with
  | .channelError _ => true
  | .reply r =>
    match r.error with
    | some _ => true
    | none =>
      match coerceEmbedding r.embedding r.data with
      | .ok _ => false
      | .error _ => true

/-- The per-call environment of one generateEmbedding invocation: the text,
what checkBackgroundModel would report if consulted, and what the remote
exchange would produce if attempted. -/
structure CallInput where
  text : List Char
  checkAvail : Bool
  remote : RemoteOutcome

/-- Model of generateEmbedding (the background-capable version): reject
empty text; serve a cache hit; if the background model is in use, delegate
to the background exchange; otherwise consult getEmbeddingModel, which on
the first call may switch to the background proxy (whose plain-array
result then fails the Array.from read of output.data), and else loads and
runs the local model, caching its vector.  The local model is modelled as
a total function, loading assumed to succeed. -/
def embedCall (lm : List Char → List ℚ) (i : CallInput) (s : EmbedState) :
    Except String (List ℚ) × EmbedState :=
  if trimJS i.text = [] then
    (.error "No text provided for embedding generation", s)
  else
    match lookupCache (getCacheKey i.text) s.cache with
    | some v => (.ok v, s)
    | none =>
      if s.isUsingBackgroundModel then
        viaBackground i.remote s
      else
        let s1 :=
          if s.checkedBackgroundModel then s
          else { s with checkedBackgroundModel := true,
                        isBackgroundModelAvailable := i.checkAvail,
                        isUsingBackgroundModel := i.checkAvail }
        if s1.isUsingBackgroundModel then
          match viaBackground i.remote s1 with
          | (.error m, s2) => (.error m, s2)
          | (.ok _, s2) => (.error "TypeError: Array.from on undefined output data", s2)
        else
          (.ok (lm i.text),
            { s1 with modelLoaded := true,
                      localCalls := s1.localCalls + 1,
                      cache := (getCacheKey i.text, lm i.text) :: s1.cache })

/-- A sequence of generateEmbedding calls, threading the service state. -/
def runCalls (lm : List Char → List ℚ) (l : List CallInput) (s : EmbedState) : EmbedState :=
  l.foldl (fun st i => (embedCall lm i st).2) s

/-- A session state in which the background model is in use. -/
def bgSessionState : EmbedState :=
  ⟨true, true, true, false, [], 0, 0⟩

/-- A session state in which the background check failed and the local
model path is in use. -/
def localSessionState : EmbedState :=
  ⟨true, false, false, false, [], 0, 0⟩

/-- A successful backend reply carrying a plain array, in the exact shape
the offscreen document sends (both embedding and data set). -/
def okArrayReply : RemoteOutcome :=
  .reply ⟨none, some (.arr [1]), some (.arr [1])⟩

/-- A call on the text hello with a successful backend reply available. -/
def helloInput : CallInput :=
  ⟨"hello".data, true, okArrayReply⟩

/-- A call on the text hello whose remote exchange hits a channel error. -/
def failInput : CallInput :=
  ⟨"hello".data, true, .channelError "The message port closed"⟩

/-- A constant local model. -/
def constModel : List Char → List ℚ := fun _ => [1]

/-- A 101-character text of the letter a. -/
def longTextA : List Char := List.replicate 101 'a'

/-- A 101-character text agreeing with longTextA on its first 100
characters and differing afterwards. -/
def longTextB : List Char := List.replicate 100 'a' ++ ['b']

/-- A call on longTextA. -/
def longInputA : CallInput := ⟨longTextA, true, okArrayReply⟩

/-- A call on longTextB. -/
def longInputB : CallInput := ⟨longTextB, true, okArrayReply⟩

/-! ## Text chunker (part_008: extractTextChunks, getTextNodes,
extractRawChunks, processChunks, generateChunkId) -/

/-- The numeric configuration of the chunker.  The exclude selectors act
only through the snapshot flags below. -/
structure ChunkOptions where
  minChunkLength : Nat
  maxChunkLength : Nat
  overlapPercentage : Nat

/-- DEFAULT_OPTIONS of part_008. -/
def defaultChunkOptions : ChunkOptions := ⟨50, 100, 0⟩

/-- A chunk as produced by the chunker: id, text and position.  The DOM
element reference is outside the model. -/
structure TChunk where
  id : String
  text : List Char
  position : Nat
deriving DecidableEq

/-- A raw chunk as built by extractRawChunks: the trimmed text of one
element, the DOM path of the element, and the DOM path of its parent
(none when the element has no parent). -/
structure RawChunk where
  text : List Char
  domPath : String
  parentPath : Option String
deriving DecidableEq

/-- The end position chosen for the window starting at startPos inside the
split loop: cap at startPos plus maxChunkLength and at the text length;
when not at the end of the text, move back to the last space inside the
final fifth of the window if one exists.  Math.floor of maxChunkLength
times 0.2 is the Nat division by 5. -/
def splitEndPos (opts : ChunkOptions) (text : List Char) (startPos : Nat) : Nat :=
  if min (startPos + opts.maxChunkLength) text.length < text.length then
    ((lastIndexOfSpace (substringJS text
        (min (startPos + opts.maxChunkLength) text.length - opts.maxChunkLength / 5)
        (min (startPos + opts.maxChunkLength) text.length))).map
      (fun p =>
        min (startPos + opts.maxChunkLength) text.length - opts.maxChunkLength / 5 + p)).getD
      (min (startPos + opts.maxChunkLength) text.length)
  else min (startPos + opts.maxChunkLength) text.length

/-- The candidate chunk text of one loop iteration: the window text,
trimmed. -/
def splitChunkText (opts : ChunkOptions) (text : List Char) (startPos : Nat) : List Char :=
  trimJS (substringJS text startPos (splitEndPos opts text startPos))

/-- The next start position: the end position moved back by the overlap
amount, Math.floor of the window size times the overlap percentage over
100. -/
def splitNextStart (opts : ChunkOptions) (text : List Char) (startPos : Nat) : Nat :=
  splitEndPos opts text startPos -
    (splitEndPos opts text startPos - startPos) * opts.overlapPercentage / 100

/-- The while loop of splitTextIntoChunks.  The ids stream models the
successive values of generateChunkId (built from Date.now and Math.random,
hence external to the snapshot); k indexes into it and advances once per
emitted chunk.  Fuel makes the loop total; every caller passes enough fuel
for the configurations considered, and the proved properties hold for
every fuel. -/
def splitLoop (opts : ChunkOptions) (ids : Nat → String) (text : List Char) :
    Nat → Nat → Nat → Nat → List TChunk
  | 0, _, _, _ => []
  | fuel + 1, startPos, position, k =>
    if startPos < text.length then
      if opts.minChunkLength ≤ (splitChunkText opts text startPos).length then
        ⟨ids k, splitChunkText opts text startPos, position⟩ ::
          splitLoop opts ids text fuel (splitNextStart opts text startPos) (position + 1) (k + 1)
      else
        splitLoop opts ids text fuel (splitNextStart opts text startPos) position k
    else []

/-- Model of the helper splitTextIntoChunks of processChunks: a text no
longer than maxChunkLength becomes a single chunk exactly when it reaches
minChunkLength (otherwise nothing); a longer text runs the split loop. -/
def splitTextIntoChunks (opts : ChunkOptions) (ids : Nat → String) (text : List Char)
    (k : Nat) : List TChunk :=
  if text.length ≤ opts.maxChunkLength then
    if opts.minChunkLength ≤ text.length then [⟨ids k, text, 0⟩] else []
  else
    splitLoop opts ids text (text.length + 1) 0 0 k

/-- The concatenation of group texts with single spaces, matching the
accumulation that prepends a space only onto a nonempty accumulator. -/
def joinSpace (ts : List (List Char)) : List Char :=
  ts.foldl (fun acc t => if acc = [] then t else acc ++ ' ' :: t) []

/-- Processing of one parent group: a single element is split on its own;
a larger group concatenates its texts and splits when over maxChunkLength,
emits one chunk when at least minChunkLength, and nothing otherwise. -/
def processGroup (opts : ChunkOptions) (ids : Nat → String) (group : List RawChunk)
    (k : Nat) : List TChunk :=
  match group with
  | [] => []
  | [c] => splitTextIntoChunks opts ids c.text k
  | c :: c2 :: rest =>
    let concatenated := joinSpace ((c :: c2 :: rest).map (fun r => r.text))
    if opts.maxChunkLength < concatenated.length then
      splitTextIntoChunks opts ids concatenated k
    else if opts.minChunkLength ≤ concatenated.length then
      [⟨ids k, concatenated, 0⟩]
    else []

/-- The parent paths in first-occurrence order, matching the insertion
order of the string-keyed grouping record; raw chunks without a parent are
skipped. -/
def groupKeys (raw : List RawChunk) : List String :=
  raw.foldl (fun ks c =>
    match c.parentPath with
    | none => ks
    | some p => if p ∈ ks then ks else ks ++ [p]) []

/-- Iteration over the groups in key order, advancing the id stream by one
per emitted chunk. -/
def processKeys (opts : ChunkOptions) (ids : Nat → String) (raw : List RawChunk) :
    List String → Nat → List TChunk
  | [], _ => []
  | p :: ps, k =>
    let out := processGroup opts ids (raw.filter (fun c => decide (c.parentPath = some p))) k
    out ++ processKeys opts ids raw ps (k + out.length)

/-- Model of processChunks: group raw chunks by parent path and process
each group in first-occurrence order. -/
def processChunks (opts : ChunkOptions) (ids : Nat → String) (raw : List RawChunk)
    (k : Nat) : List TChunk :=
  processKeys opts ids raw (groupKeys raw) k

/-- One element of the content snapshot consumed by getTextNodes, with the
DOM-derived predicates the filter consults already evaluated: whether the
element matches the exclude selectors, its text content, whether its
computed style hides it, and whether it has a direct nonempty text child. -/
structure SnapElem where
  excluded : Bool
  text : List Char
  hidden : Bool
  hasOwnTextNode : Bool
  domPath : String
  parentPath : Option String
deriving DecidableEq

/-- Model of getTextNodes: keep elements that are not excluded, have
nonempty trimmed text, are not hidden, and own a nonempty text child. -/
def getTextNodes (snap : List SnapElem) : List SnapElem :=
  snap.filter (fun e =>
    !e.excluded && !(trimJS e.text).isEmpty && !e.hidden && e.hasOwnTextNode)

/-- Model of extractRawChunks: trimmed text with the DOM paths, dropping
empty texts. -/
def extractRawChunks (els : List SnapElem) : List RawChunk :=
  (els.map (fun e => RawChunk.mk (trimJS e.text) e.domPath e.parentPath)).filter
    (fun c => decide (0 < c.text.length))

/-- Model of extractTextChunks over a snapshot: filter, extract raw
chunks, process. -/
def extractTextChunks (opts : ChunkOptions) (ids : Nat → String) (snap : List SnapElem)
    (k : Nat) : List TChunk :=
  processChunks opts ids (extractRawChunks (getTextNodes snap)) k

/-- The id-independent projection of a chunk. -/
def stripIdPos (c : TChunk) : List Char × Nat := (c.text, c.position)

/-- A snapshot with a single visible 60-character paragraph. -/
def snapOne : List SnapElem :=
  [⟨false, List.replicate 60 'a', false, true, "body > p", some "body"⟩]

/-- An id stream as drawn by one invocation of the chunker. -/
def idsA : Nat → String := fun _ => "chunk-100-aaaaaaaaa"

/-- A distinct id stream, as drawn by a later invocation after Date.now
and Math.random have advanced. -/
def idsB : Nat → String := fun _ => "chunk-101-bbbbbbbbb"

/-- A raw chunk whose entire text is shorter than the default
minChunkLength. -/
def shortRaw : RawChunk := ⟨"short".data, "body > div", some "body"⟩

/-- A raw chunk of adequate length. -/
def okRaw : RawChunk := ⟨List.replicate 60 'a', "body > p", some "body"⟩

/-! ## Highlighting (part_009: HighlightManager.highlightMatch,
setActiveHighlight, removeAllHighlights) -/

/-- A content tree: text nodes and elements with a tag, a class list and
children. -/
inductive DNode where
  | text (s : List Char)
  | elem (tag : String) (classes : List String) (children : List DNode)

/-- The highlight marker class of HighlightManager. -/
def hlClass : String := "vibe-semantic-highlight"

/-- The active-highlight class of HighlightManager. -/
def activeClass : String := "vibe-semantic-highlight-active"

mutual
/-- Model of Node.textContent: the concatenation of all text leaves in
document order. -/
def textContent : DNode → List Char
  | .text s => s
  | .elem _ _ cs => textContentList cs
/-- textContent of a forest of siblings. -/
def textContentList : List DNode → List Char
  | [] => []
  | c :: cs => textContent c ++ textContentList cs
end

/-- Model of Range.surroundContents on a range [a, b) inside one text
node, as performed by highlightMatch: the node splits into the text before
the range, a span carrying the highlight class and holding exactly the
matched range, and the text after the range.  An invalid range makes
surroundContents throw; highlightMatch catches and leaves the tree
unchanged. -/
def spliceText (a b : Nat) : DNode → List DNode
  | .text s =>
    if a ≤ b ∧ b ≤ s.length then
      [.text (s.take a),
       .elem "span" [hlClass] [.text ((s.drop a).take (b - a))],
       .text (s.drop b)]
    else [.text s]
  | n => [n]

mutual
/-- Apply highlightMatch for the range [a, b) at the text node addressed
by the child-index path; anywhere the path fails to address a text node,
the tree is unchanged (the caught-error path). -/
def highlightNode (a b : Nat) : DNode → List Nat → DNode
  | n, [] => n
  | .text s, _ :: _ => .text s
  | .elem t cls cs, i :: rest => .elem t cls (highlightChildren a b cs i rest)
/-- Helper of highlightNode on a sibling list: when the path ends here,
splice the addressed child; otherwise descend. -/
def highlightChildren (a b : Nat) : List DNode → Nat → List Nat → List DNode
  | [], _, _ => []
  | c :: cs, 0, [] => spliceText a b c ++ cs
  | c :: cs, 0, j :: rest => highlightNode a b c (j :: rest) :: cs
  | c :: cs, i + 1, p => c :: highlightChildren a b cs i p
end

mutual
/-- Apply a class-list edit at the element addressed by the path, leaving
all text untouched: the model of setActiveHighlight and of classList
add and remove during navigation. -/
def modifyClassesAt (f : List String → List String) : DNode → List Nat → DNode
  | .text s, _ => .text s
  | .elem t cls cs, [] => .elem t (f cls) cs
  | .elem t cls cs, i :: rest => .elem t cls (modifyClassesChildren f cs i rest)
/-- Helper of modifyClassesAt on a sibling list. -/
def modifyClassesChildren (f : List String → List String) :
    List DNode → Nat → List Nat → List DNode
  | [], _, _ => []
  | c :: cs, 0, rest => modifyClassesAt f c rest :: cs
  | c :: cs, i + 1, rest => c :: modifyClassesChildren f cs i rest
end

mutual
/-- Model of removeAllHighlights: every element carrying the highlight
class is replaced by its (recursively processed) children, in place; all
other structure is kept. -/
def removeAllNode : DNode → List DNode
  | .text s => [.text s]
  | .elem t cls cs =>
    if hlClass ∈ cls then removeAllList cs else [.elem t cls (removeAllList cs)]
/-- removeAllHighlights over a sibling list. -/
def removeAllList : List DNode → List DNode
  | [] => []
  | c :: cs => removeAllNode c ++ removeAllList cs
end

/-- One highlight or navigation operation on the content tree. -/
inductive HOp where
  | highlight (path : List Nat) (startOff stopOff : Nat)
  | addActive (path : List Nat)
  | removeActive (path : List Nat)

/-- Apply one operation. -/
def applyOp : HOp → DNode → DNode
  | .highlight p a b, d => highlightNode a b d p
  | .addActive p, d => modifyClassesAt (fun cls => cls ++ [activeClass]) d p
  | .removeActive p, d =>
    modifyClassesAt (fun cls => cls.filter (fun c2 => decide (c2 ≠ activeClass))) d p

/-- Apply a sequence of highlight and navigation operations. -/
def applyOps (ops : List HOp) (d : DNode) : DNode :=
  ops.foldl (fun acc o => applyOp o acc) d

/-! ## Theorems -/

theorem dotProduct_self (a : List ℚ) : dotProduct a a = normSq a := by
  induction a with
  | nil => rfl
  | cons x xs ih =>
    simp [dotProduct, normSq] at ih ⊢
    exact ih

theorem normSq_nonneg (a : List ℚ) : 0 ≤ normSq a := by
  induction a with
  | nil => simp [normSq]
  | cons x xs ih =>
    simp only [normSq, List.map_cons, List.sum_cons] at ih ⊢
    have hx : 0 ≤ x * x := mul_self_nonneg x
    linarith

theorem normSq_eq_zero_iff (a : List ℚ) : normSq a = 0 ↔ ∀ x ∈ a, x = 0 := by
  induction a with
  | nil => simp [normSq]
  | cons x xs ih =>
    simp only [normSq, List.map_cons, List.sum_cons, List.mem_cons] at ih ⊢
    constructor
    · intro h
      have hx : 0 ≤ x * x := mul_self_nonneg x
      have hxs : 0 ≤ normSq xs := normSq_nonneg xs
      simp only [normSq] at hxs
      have hx0 : x * x = 0 := by linarith
      have hxz : x = 0 := by
        rcases mul_self_eq_zero.mp hx0 with h0
        exact h0
      refine fun y hy => ?_
      rcases hy with hy | hy
      · exact hy ▸ hxz
      · exact (ih.mp (by linarith)) y hy
    · intro h
      have hxz : x = 0 := h x (Or.inl rfl)
      have hxs : normSq xs = 0 := ih.mpr (fun y hy => h y (Or.inr hy))
      simp only [normSq] at hxs
      simp [hxz, hxs]

/-- C2: cosineSimilarity errors exactly when the vector lengths differ;
for equal lengths it returns exactly 0 when either vector has zero
magnitude and the dot product over the product of the norms otherwise; and
on any nonzero vector paired with itself it returns exactly 1 (hence
approximately 1). -/
theorem cosineSimilarity_spec :
    (∀ a b : List ℚ, (∃ e, cosineSimilarity a b = .error e) ↔ a.length ≠ b.length) ∧
    (∀ a b : List ℚ, a.length = b.length → (normSq a = 0 ∨ normSq b = 0) →
      cosineSimilarity a b = .ok 0) ∧
    (∀ a b : List ℚ, a.length = b.length → normSq a ≠ 0 → normSq b ≠ 0 →
      cosineSimilarity a b =
        .ok ((dotProduct a b : ℝ) / (Real.sqrt (normSq a) * Real.sqrt (normSq b)))) ∧
    (∀ v : List ℚ, (∃ x ∈ v, x ≠ 0) → cosineSimilarity v v = .ok 1) := by
  refine ⟨?_, ?_, ?_, ?_⟩
  · intro a b
    constructor
    · rintro ⟨e, he⟩
      by_contra hlen
      have hne : ¬a.length ≠ b.length := by simp [hlen]
      rw [cosineSimilarity, if_neg hne] at he
      split at he <;> simp at he
    · intro hlen
      exact ⟨_, by rw [cosineSimilarity, if_pos hlen]⟩
  · intro a b hlen hz
    have hne : ¬a.length ≠ b.length := by simp [hlen]
    rw [cosineSimilarity, if_neg hne, if_pos hz]
  · intro a b hlen ha hb
    have hne : ¬a.length ≠ b.length := by simp [hlen]
    rw [cosineSimilarity, if_neg hne, if_neg (by tauto)]
  · intro v hv
    have hnz : normSq v ≠ 0 := by
      rw [Ne, normSq_eq_zero_iff]
      rintro hall
      rcases hv with ⟨x, hx, hxne⟩
      exact hxne (hall x hx)
    have hne : ¬v.length ≠ v.length := by simp
    rw [cosineSimilarity, if_neg hne, if_neg (by tauto)]
    have hpos : (0 : ℝ) < (normSq v : ℝ) := by
      have := normSq_nonneg v
      have : (0 : ℝ) ≤ (normSq v : ℝ) := by exact_mod_cast this
      rcases lt_or_eq_of_le this with h | h
      · exact h
      · exact absurd (by exact_mod_cast h.symm) hnz
    have hsq : Real.sqrt (normSq v) * Real.sqrt (normSq v) = (normSq v : ℝ) :=
      Real.mul_self_sqrt (le_of_lt hpos)
    rw [dotProduct_self, hsq]
    congr 1
    field_simp

/-- Witness for C2 at the one-entry vector with entry 1. -/
theorem cosineSimilarity_spec_witness :
    (∃ x ∈ [(1 : ℚ)], x ≠ 0) ∧ cosineSimilarity [(1 : ℚ)] [(1 : ℚ)] = .ok 1 :=
  ⟨⟨1, by decide, by decide⟩,
    cosineSimilarity_spec.2.2.2 [(1 : ℚ)] ⟨1, by decide, by decide⟩⟩

theorem cosineSimilarity_one_one : cosineSimilarity [(1 : ℚ)] [(1 : ℚ)] = .ok 1 := by
  have hne : ¬([(1 : ℚ)].length ≠ [(1 : ℚ)].length) := by simp
  have hz : ¬(normSq [(1 : ℚ)] = 0 ∨ normSq [(1 : ℚ)] = 0) := by
    simp [normSq]
  rw [cosineSimilarity, if_neg hne, if_neg hz]
  have : normSq [(1 : ℚ)] = 1 := by simp [normSq]
  rw [this]
  have : dotProduct [(1 : ℚ)] [(1 : ℚ)] = 1 := by simp [dotProduct]
  rw [this]
  norm_num [Real.sqrt_one]

theorem similarityThreshold_lt_one : similarityThreshold < 1 := by
  rw [similarityThreshold]; norm_num

theorem mem_rankCandidates {q : List ℚ} {cs : List SChunk}
    {emb : String → Option (List ℚ)} {x : SChunk × ℝ}
    (hx : x ∈ rankCandidates q cs emb) :
    similarityThreshold < x.2 ∧ emb x.1.id ≠ none := by
  rw [rankCandidates] at hx
  obtain ⟨c, _, hfc⟩ := List.mem_filterMap.mp hx
  obtain ⟨e, he, hfc2⟩ := Option.bind_eq_some.mp hfc
  obtain ⟨s, _, hfc3⟩ := Option.bind_eq_some.mp hfc2
  by_cases ht : similarityThreshold < s
  · rw [if_pos ht] at hfc3
    have hxcs : x = (c, s) := by
      injection hfc3 with h
      exact h.symm
    subst hxcs
    exact ⟨ht, by simp [he]⟩
  · rw [if_neg ht] at hfc3
    exact absurd hfc3 (by simp)

theorem length_filterMap_of_isSome {α β : Type} (f : α → Option β) :
    ∀ l : List α, (∀ a ∈ l, (f a).isSome) → (l.filterMap f).length = l.length := by
  intro l
  induction l with
  | nil => intro _; rfl
  | cons a as ih =>
    intro h
    have ha : (f a).isSome := h a (List.mem_cons_self a as)
    obtain ⟨b, hb⟩ := Option.isSome_iff_exists.mp ha
    rw [List.filterMap_cons, hb]
    simp only [List.length_cons]
    rw [ih (fun x hx => h x (List.mem_cons_of_mem a hx))]

/-- C1 (amended): for every query embedding, chunk set and embedding
record, the performSearch ranking is sorted by score descending, has
length at most 10, and contains only chunks with a stored embedding whose
score strictly exceeds the threshold 0.3; the SearchService.search variant
satisfies the same sortedness, threshold and exclusion properties but does
not truncate to 10. -/
theorem rank_spec :
    (∀ (q : List ℚ) (cs : List SChunk) (emb : String → Option (List ℚ)),
      SortedDescBy (performSearchRank q cs emb) ∧
      (performSearchRank q cs emb).length ≤ 10 ∧
      ∀ x ∈ performSearchRank q cs emb,
        similarityThreshold < x.2 ∧ emb x.1.id ≠ none) ∧
    (∀ (q : List ℚ) (cs : List SChunk) (emb : String → Option (List ℚ)),
      SortedDescBy (searchServiceSearch q cs emb) ∧
      ∀ x ∈ searchServiceSearch q cs emb,
        similarityThreshold < x.2 ∧ emb x.1.id ≠ none) := by
  have hsorted : ∀ (q : List ℚ) (cs : List SChunk) (emb : String → Option (List ℚ)),
      SortedDescBy (searchServiceSearch q cs emb) := by
    intro q cs emb
    exact List.sorted_insertionSort scoreGE _
  have hmem : ∀ (q : List ℚ) (cs : List SChunk) (emb : String → Option (List ℚ)),
      ∀ x ∈ searchServiceSearch q cs emb,
        similarityThreshold < x.2 ∧ emb x.1.id ≠ none := by
    intro q cs emb x hx
    have : x ∈ rankCandidates q cs emb :=
      (List.perm_insertionSort scoreGE _).mem_iff.mp hx
    exact mem_rankCandidates this
  refine ⟨?_, fun q cs emb => ⟨hsorted q cs emb, hmem q cs emb⟩⟩
  intro q cs emb
  refine ⟨?_, ?_, ?_⟩
  · exact (hsorted q cs emb).sublist (List.take_sublist 10 _)
  · exact List.length_take_le 10 _
  · intro x hx
    exact hmem q cs emb x ((List.take_sublist 10 _).subset hx)

/-- Witness for C1 at a single above-threshold chunk. -/
theorem rank_spec_witness :
    (⟨"c0", "t"⟩, (1 : ℝ)) ∈
      performSearchRank [1] [⟨"c0", "t"⟩] (fun _ => some [1]) ∧
    (similarityThreshold < (1 : ℝ) ∧ (fun _ : String => some [(1 : ℚ)]) "c0" ≠ none) := by
  have hcand : rankCandidates [1] [⟨"c0", "t"⟩] (fun _ => some [1]) =
      [(⟨"c0", "t"⟩, (1 : ℝ))] := by
    rw [rankCandidates]
    simp [cosineSimilarity_one_one, similarityThreshold_lt_one, Except.toOption]
  have hmem : (⟨"c0", "t"⟩, (1 : ℝ)) ∈
      performSearchRank [1] [⟨"c0", "t"⟩] (fun _ => some [1]) := by
    rw [performSearchRank, hcand]
    simp [sortByScoreDesc, List.insertionSort, List.orderedInsert]
  exact ⟨hmem, (rank_spec.1 [1] [⟨"c0", "t"⟩] (fun _ => some [1])).2.2 _ hmem⟩

/-- Counterexample for C1 as frozen: the SearchService.search ranking
returns eleven results when eleven chunks all score above threshold, so
its length is not bounded by 10. -/
theorem searchServiceSearch_exceeds_ten :
    10 < (searchServiceSearch [1] elevenChunks (fun _ => some [1])).length := by
  have hperm : (searchServiceSearch [1] elevenChunks (fun _ => some [1])).length =
      (rankCandidates [1] elevenChunks (fun _ => some [1])).length :=
    (List.perm_insertionSort scoreGE _).length_eq
  have hall : ∀ c ∈ elevenChunks,
      ((fun c : SChunk =>
        ((fun _ : String => some [(1 : ℚ)]) c.id).bind (fun e =>
          (cosineSimilarity [1] e).toOption.bind (fun s =>
            if similarityThreshold < s then some (c, s) else none))) c).isSome := by
    intro c _
    simp [cosineSimilarity_one_one, similarityThreshold_lt_one, Except.toOption]
  have hlen : (rankCandidates [1] elevenChunks (fun _ => some [1])).length =
      elevenChunks.length := by
    rw [rankCandidates]
    exact length_filterMap_of_isSome _ elevenChunks hall
  rw [hperm, hlen]
  simp [elevenChunks]

/-- C6 (amended): a plain array under the embedding field, a plain array
under the data field, and an object wrapping an array or typed buffer
under its data field all normalize to their elements (when nonempty); a
bare typed buffer is not recognized, because only its absent data property
is consulted, and yields the empty-embedding error; the format error is
raised exactly when the embedding field is neither an array nor an object
and the data field is not an array. -/
theorem coerceEmbedding_spec :
    (∀ (l : List ℚ) (d : Option JsField), l ≠ [] →
      coerceEmbedding (some (.arr l)) d = .ok l) ∧
    (∀ (e : Option JsField) (l : List ℚ), isJsArray e = false → l ≠ [] →
      coerceEmbedding e (some (.arr l)) = .ok l) ∧
    (∀ (d : Option JsField) (l : List ℚ), isJsArray d = false → l ≠ [] →
      coerceEmbedding (some (.obj (some (.arr l)))) d = .ok l) ∧
    (∀ (d : Option JsField) (l : List ℚ), isJsArray d = false → l ≠ [] →
      coerceEmbedding (some (.obj (some (.typedBuf l)))) d = .ok l) ∧
    (∀ (d : Option JsField) (l : List ℚ), isJsArray d = false →
      coerceEmbedding (some (.typedBuf l)) d = .error "Received empty embedding") ∧
    (∀ e d : Option JsField,
      coerceEmbedding e d = .error "Invalid embedding format received" ↔
        (isJsArray e = false ∧ isJsObject e = false ∧ isJsArray d = false)) := by
  refine ⟨?_, ?_, ?_, ?_, ?_, ?_⟩
  · intro l d hl
    simp [coerceEmbedding, List.length_eq_zero, hl]
  · intro e l he hl
    rcases e with _ | f
    · simp [coerceEmbedding, List.length_eq_zero, hl]
    · rcases f with l2 | l2 | d2 | _
      · simp [isJsArray] at he
      · simp [coerceEmbedding, List.length_eq_zero, hl]
      · simp [coerceEmbedding, List.length_eq_zero, hl]
      · simp [coerceEmbedding, List.length_eq_zero, hl]
  · intro d l hd hl
    rcases d with _ | f
    · simp [coerceEmbedding, dataPropElems, List.length_eq_zero, hl]
    · rcases f with l2 | l2 | d2 | _
      · simp [isJsArray] at hd
      · simp [coerceEmbedding, dataPropElems, List.length_eq_zero, hl]
      · simp [coerceEmbedding, dataPropElems, List.length_eq_zero, hl]
      · simp [coerceEmbedding, dataPropElems, List.length_eq_zero, hl]
  · intro d l hd hl
    rcases d with _ | f
    · simp [coerceEmbedding, dataPropElems, List.length_eq_zero, hl]
    · rcases f with l2 | l2 | d2 | _
      · simp [isJsArray] at hd
      · simp [coerceEmbedding, dataPropElems, List.length_eq_zero, hl]
      · simp [coerceEmbedding, dataPropElems, List.length_eq_zero, hl]
      · simp [coerceEmbedding, dataPropElems, List.length_eq_zero, hl]
  · intro d l hd
    rcases d with _ | f
    · simp [coerceEmbedding]
    · rcases f with l2 | l2 | d2 | _
      · simp [isJsArray] at hd
      · simp [coerceEmbedding]
      · simp [coerceEmbedding]
      · simp [coerceEmbedding]
  · intro e d
    rcases e with _ | f
    · rcases d with _ | g
      · simp [coerceEmbedding, isJsArray, isJsObject]
      · rcases g with l2 | l2 | d2 | _ <;>
          simp [coerceEmbedding, isJsArray, isJsObject] <;> split <;> simp
    · rcases f with l | l | d2 | _
      · rcases d with _ | g
        · simp [coerceEmbedding, isJsArray, isJsObject]
          split <;> simp
        · rcases g with l2 | l2 | d3 | _ <;>
            simp [coerceEmbedding, isJsArray, isJsObject] <;> split <;> simp
      · rcases d with _ | g
        · simp [coerceEmbedding, isJsArray, isJsObject]
        · rcases g with l2 | l2 | d3 | _ <;>
            simp [coerceEmbedding, isJsArray, isJsObject] <;> split <;> simp
      · rcases d with _ | g
        · simp [coerceEmbedding, isJsArray, isJsObject]
          split <;> simp
        · rcases g with l2 | l2 | d3 | _ <;>
            simp [coerceEmbedding, isJsArray, isJsObject] <;> split <;> simp
      · rcases d with _ | g
        · simp [coerceEmbedding, isJsArray, isJsObject]
        · rcases g with l2 | l2 | d3 | _ <;>
            simp [coerceEmbedding, isJsArray, isJsObject] <;> split <;> simp

/-- Witness for C6 at a one-element plain array under the embedding
field. -/
theorem coerceEmbedding_spec_witness :
    ([(1 : ℚ)] ≠ []) ∧ coerceEmbedding (some (.arr [(1 : ℚ)])) none = .ok [(1 : ℚ)] :=
  ⟨by simp, coerceEmbedding_spec.1 [(1 : ℚ)] none (by simp)⟩

/-- Counterexample for C6 as frozen: a response whose embedding field is a
bare typed numeric buffer is not normalized to its numeric contents; the
coercion reads the absent data property and fails with the empty-embedding
error. -/
theorem coerceEmbedding_typedBuf_fails :
    coerceEmbedding (some (.typedBuf [1, 2, 3])) none = .error "Received empty embedding" ∧
    coerceEmbedding (some (.typedBuf [1, 2, 3])) none ≠ .ok [1, 2, 3] :=
  ⟨rfl, fun h => by simp [coerceEmbedding] at h⟩

theorem viaBackground_of_fails (o : RemoteOutcome) (s : EmbedState)
    (h : remoteFails o = true) :
    ∃ e, viaBackground o s =
      (.error e, { s with remoteCalls := s.remoteCalls + 1,
                          isUsingBackgroundModel := false,
                          isBackgroundModelAvailable := false }) := by
  cases o with
  | channelError m => exact ⟨m, rfl⟩
  | reply r =>
    cases he : r.error with
    | some m => exact ⟨m, by simp [viaBackground, he]⟩
    | none =>
      cases hco : coerceEmbedding r.embedding r.data with
      | ok arr => simp [remoteFails, he, hco] at h
      | error e => exact ⟨e, by simp [viaBackground, he, hco]⟩

theorem embedCall_bg (lm : List Char → List ℚ) (i : CallInput) (s : EmbedState)
    (hu : s.isUsingBackgroundModel = true)
    (ht : trimJS i.text ≠ [])
    (hmiss : lookupCache (getCacheKey i.text) s.cache = none) :
    embedCall lm i s = viaBackground i.remote s := by
  simp [embedCall, ht, hmiss, hu]

theorem embedCall_cache_hit (lm : List Char → List ℚ) (i : CallInput) (s : EmbedState)
    (v : List ℚ) (ht : trimJS i.text ≠ [])
    (hhit : lookupCache (getCacheKey i.text) s.cache = some v) :
    embedCall lm i s = (.ok v, s) := by
  simp [embedCall, ht, hhit]

theorem embedCall_local_step (lm : List Char → List ℚ) (i : CallInput) (s : EmbedState)
    (hc : s.checkedBackgroundModel = true)
    (hu : s.isUsingBackgroundModel = false)
    (ht : trimJS i.text ≠ [])
    (hmiss : lookupCache (getCacheKey i.text) s.cache = none) :
    embedCall lm i s =
      (.ok (lm i.text),
        { s with modelLoaded := true,
                 localCalls := s.localCalls + 1,
                 cache := (getCacheKey i.text, lm i.text) :: s.cache }) := by
  simp [embedCall, ht, hmiss, hu, hc]

theorem embedCall_preserves_local (lm : List Char → List ℚ) (i : CallInput)
    (s : EmbedState)
    (hc : s.checkedBackgroundModel = true)
    (hu : s.isUsingBackgroundModel = false) :
    (embedCall lm i s).2.checkedBackgroundModel = true ∧
    (embedCall lm i s).2.isUsingBackgroundModel = false ∧
    (embedCall lm i s).2.remoteCalls = s.remoteCalls := by
  by_cases hte : trimJS i.text = []
  · simp [embedCall, hte, hc, hu]
  · cases hhit : lookupCache (getCacheKey i.text) s.cache with
    | some v => rw [embedCall_cache_hit lm i s v hte hhit]; exact ⟨hc, hu, rfl⟩
    | none => rw [embedCall_local_step lm i s hc hu hte hhit]; exact ⟨hc, hu, rfl⟩

theorem embedCall_local_ok (lm : List Char → List ℚ) (i : CallInput) (s : EmbedState)
    (hc : s.checkedBackgroundModel = true)
    (hu : s.isUsingBackgroundModel = false)
    (ht : trimJS i.text ≠ []) :
    ∃ v, (embedCall lm i s).1 = .ok v := by
  cases hhit : lookupCache (getCacheKey i.text) s.cache with
  | some v => exact ⟨v, by rw [embedCall_cache_hit lm i s v ht hhit]⟩
  | none => exact ⟨lm i.text, by rw [embedCall_local_step lm i s hc hu ht hhit]⟩

theorem runCalls_local_invariant (lm : List Char → List ℚ) :
    ∀ (l : List CallInput) (s : EmbedState),
      s.checkedBackgroundModel = true → s.isUsingBackgroundModel = false →
      (runCalls lm l s).checkedBackgroundModel = true ∧
      (runCalls lm l s).isUsingBackgroundModel = false ∧
      (runCalls lm l s).remoteCalls = s.remoteCalls := by
  intro l
  induction l with
  | nil => intro s hc hu; exact ⟨hc, hu, rfl⟩
  | cons i rest ih =>
    intro s hc hu
    have hstep := embedCall_preserves_local lm i s hc hu
    have hrest := ih (embedCall lm i s).2 hstep.1 hstep.2.1
    have hcons : runCalls lm (i :: rest) s = runCalls lm rest (embedCall lm i s).2 := rfl
    rw [hcons]
    exact ⟨hrest.1, hrest.2.1, hrest.2.2.trans hstep.2.2⟩

/-- C5: once the background model is in use, a failing remote exchange on
an embed call (channel error, reply carrying an error, or malformed reply)
rejects that call, permanently clears the background flags, and from then
on no embed call ever contacts the remote backend again, while any
subsequent nonempty-text call succeeds through the local fallback. -/
theorem transportFailure_permanent_fallback
    (lm : List Char → List ℚ) (i : CallInput) (s : EmbedState)
    (hc : s.checkedBackgroundModel = true)
    (hu : s.isUsingBackgroundModel = true)
    (ht : trimJS i.text ≠ [])
    (hmiss : lookupCache (getCacheKey i.text) s.cache = none)
    (hfail : remoteFails i.remote = true) :
    (∃ e, (embedCall lm i s).1 = .error e) ∧
    (embedCall lm i s).2.isUsingBackgroundModel = false ∧
    (embedCall lm i s).2.checkedBackgroundModel = true ∧
    (∀ calls : List CallInput,
      (runCalls lm calls (embedCall lm i s).2).remoteCalls =
        (embedCall lm i s).2.remoteCalls ∧
      (runCalls lm calls (embedCall lm i s).2).isUsingBackgroundModel = false) ∧
    (∀ j : CallInput, trimJS j.text ≠ [] →
      ∃ v, (embedCall lm j (embedCall lm i s).2).1 = .ok v) := by
  obtain ⟨e, hvb⟩ := viaBackground_of_fails i.remote s hfail
  have hcall : embedCall lm i s = viaBackground i.remote s := embedCall_bg lm i s hu ht hmiss
  rw [hcall, hvb]
  refine ⟨⟨e, rfl⟩, rfl, hc, ?_, ?_⟩
  · intro calls
    have hinv := runCalls_local_invariant lm calls
      { s with remoteCalls := s.remoteCalls + 1,
               isUsingBackgroundModel := false,
               isBackgroundModelAvailable := false } hc rfl
    exact ⟨hinv.2.2, hinv.2.1⟩
  · intro j htj
    exact embedCall_local_ok lm j _ hc rfl htj

/-- Witness for C5 at a concrete background session hit by a channel
error. -/
theorem transportFailure_permanent_fallback_witness :
    (bgSessionState.checkedBackgroundModel = true ∧
     bgSessionState.isUsingBackgroundModel = true ∧
     trimJS failInput.text ≠ [] ∧
     lookupCache (getCacheKey failInput.text) bgSessionState.cache = none ∧
     remoteFails failInput.remote = true) ∧
    (embedCall constModel failInput bgSessionState).2.isUsingBackgroundModel = false :=
  ⟨⟨rfl, rfl, by decide, rfl, rfl⟩,
    (transportFailure_permanent_fallback constModel failInput bgSessionState
      rfl rfl (by decide) rfl rfl).2.1⟩

/-- C3 (amended): on the local-model path, the first embed call computes
the vector, invokes the local model once, and caches it; a second call on
the same text returns the identical vector from the cache with the state
unchanged, so neither the model nor the backend is invoked again. -/
theorem embed_cache_idempotent_local
    (lm : List Char → List ℚ) (i1 i2 : CallInput) (s : EmbedState)
    (hc : s.checkedBackgroundModel = true)
    (hu : s.isUsingBackgroundModel = false)
    (hsame : i2.text = i1.text)
    (ht : trimJS i1.text ≠ [])
    (hmiss : lookupCache (getCacheKey i1.text) s.cache = none) :
    (embedCall lm i1 s).1 = .ok (lm i1.text) ∧
    (embedCall lm i1 s).2.localCalls = s.localCalls + 1 ∧
    (embedCall lm i1 s).2.remoteCalls = s.remoteCalls ∧
    (embedCall lm i2 (embedCall lm i1 s).2).1 = .ok (lm i1.text) ∧
    (embedCall lm i2 (embedCall lm i1 s).2).2 = (embedCall lm i1 s).2 := by
  have h1 := embedCall_local_step lm i1 s hc hu ht hmiss
  have hhit : lookupCache (getCacheKey i2.text) (embedCall lm i1 s).2.cache =
      some (lm i1.text) := by
    rw [h1, hsame]
    simp [lookupCache]
  have h2 := embedCall_cache_hit lm i2 (embedCall lm i1 s).2 (lm i1.text)
    (by rw [hsame]; exact ht) hhit
  rw [h2]
  rw [h1]
  exact ⟨rfl, rfl, rfl, rfl, rfl⟩

/-- Witness for C3 (amended) at a concrete local session and text. -/
theorem embed_cache_idempotent_local_witness :
    (localSessionState.checkedBackgroundModel = true ∧
     localSessionState.isUsingBackgroundModel = false ∧
     helloInput.text = helloInput.text ∧
     trimJS helloInput.text ≠ [] ∧
     lookupCache (getCacheKey helloInput.text) localSessionState.cache = none) ∧
    (embedCall constModel helloInput localSessionState).1 = .ok (constModel helloInput.text) :=
  ⟨⟨rfl, rfl, rfl, by decide, rfl⟩,
    (embed_cache_idempotent_local constModel helloInput helloInput localSessionState
      rfl rfl rfl (by decide) rfl).1⟩

/-- Counterexample for C3 as frozen: with the background model in use, two
embed calls on the same text each contact the backend (two message
exchanges, hence two model runs in the offscreen host) and the local cache
is never populated, although both calls succeed. -/
theorem embed_background_recomputes :
    (embedCall constModel helloInput bgSessionState).1 = .ok [1] ∧
    (embedCall constModel helloInput
        (embedCall constModel helloInput bgSessionState).2).1 = .ok [1] ∧
    (embedCall constModel helloInput
        (embedCall constModel helloInput bgSessionState).2).2.remoteCalls = 2 ∧
    (embedCall constModel helloInput
        (embedCall constModel helloInput bgSessionState).2).2.cache = [] :=
  ⟨rfl, rfl, rfl, rfl⟩

/-- C10: the embedding cache key is the model identity joined with the
whitespace-collapsed first 100 characters of the text, so on the caching
(local) path two texts agreeing on that normalized prefix share a key, and
embedding the second text after the first is served the cached vector that
was computed for the first text. -/
theorem cacheKey_prefix_collision
    (lm : List Char → List ℚ) (i1 i2 : CallInput) (s : EmbedState)
    (hc : s.checkedBackgroundModel = true)
    (hu : s.isUsingBackgroundModel = false)
    (hpre : collapseWs (i1.text.take 100) = collapseWs (i2.text.take 100))
    (ht1 : trimJS i1.text ≠ [])
    (ht2 : trimJS i2.text ≠ [])
    (hmiss : lookupCache (getCacheKey i1.text) s.cache = none) :
    getCacheKey i1.text = getCacheKey i2.text ∧
    (embedCall lm i1 s).1 = .ok (lm i1.text) ∧
    (embedCall lm i2 (embedCall lm i1 s).2).1 = .ok (lm i1.text) ∧
    (embedCall lm i2 (embedCall lm i1 s).2).2 = (embedCall lm i1 s).2 := by
  have hkey : getCacheKey i1.text = getCacheKey i2.text := by
    rw [getCacheKey, getCacheKey, hpre]
  have h1 := embedCall_local_step lm i1 s hc hu ht1 hmiss
  have hhit : lookupCache (getCacheKey i2.text) (embedCall lm i1 s).2.cache =
      some (lm i1.text) := by
    rw [h1, ← hkey]
    simp [lookupCache]
  have h2 := embedCall_cache_hit lm i2 (embedCall lm i1 s).2 (lm i1.text) ht2 hhit
  rw [h2]
  rw [h1]
  exact ⟨hkey, rfl, rfl, rfl⟩

/-- Witness for C10 at two 101-character texts agreeing on their first 100
characters and differing afterwards. -/
theorem cacheKey_prefix_collision_witness :
    (localSessionState.checkedBackgroundModel = true ∧
     localSessionState.isUsingBackgroundModel = false ∧
     collapseWs (longInputA.text.take 100) = collapseWs (longInputB.text.take 100) ∧
     trimJS longInputA.text ≠ [] ∧
     trimJS longInputB.text ≠ [] ∧
     lookupCache (getCacheKey longInputA.text) localSessionState.cache = none ∧
     longInputA.text ≠ longInputB.text) ∧
    getCacheKey longInputA.text = getCacheKey longInputB.text ∧
    (embedCall constModel longInputB
        (embedCall constModel longInputA localSessionState).2).1 =
      .ok (constModel longInputA.text) :=
  ⟨⟨rfl, rfl, by decide, by decide, by decide, rfl, by decide⟩,
    (cacheKey_prefix_collision constModel longInputA longInputB localSessionState
      rfl rfl (by decide) (by decide) (by decide) rfl).1,
    (cacheKey_prefix_collision constModel longInputA longInputB localSessionState
      rfl rfl (by decide) (by decide) (by decide) rfl).2.2.1⟩

theorem length_dropWhile_le (p : Char → Bool) :
    ∀ l : List Char, (l.dropWhile p).length ≤ l.length := by
  intro l
  induction l with
  | nil => simp
  | cons a as ih =>
    by_cases hpa : p a
    · rw [List.dropWhile_cons_of_pos hpa]
      exact le_trans ih (Nat.le_succ _)
    · rw [List.dropWhile_cons_of_neg hpa]

theorem trimJS_length_le (l : List Char) : (trimJS l).length ≤ l.length := by
  rw [trimJS]
  rw [List.length_reverse]
  calc ((l.dropWhile jsWs).reverse.dropWhile jsWs).length
      ≤ (l.dropWhile jsWs).reverse.length := length_dropWhile_le jsWs _
    _ = (l.dropWhile jsWs).length := List.length_reverse _
    _ ≤ l.length := length_dropWhile_le jsWs l

theorem substringJS_length_le (l : List Char) (a b : Nat) :
    (substringJS l a b).length ≤ b - a := by
  rw [substringJS]
  exact List.length_take_le _ _

theorem lastIndexOfSpace_lt :
    ∀ (l : List Char) (p : Nat), lastIndexOfSpace l = some p → p < l.length := by
  intro l
  induction l with
  | nil => intro p h; simp [lastIndexOfSpace] at h
  | cons c cs ih =>
    intro p h
    rw [lastIndexOfSpace] at h
    cases hcs : lastIndexOfSpace cs with
    | some q =>
      rw [hcs] at h
      injection h with h2
      have := ih q hcs
      simp only [List.length_cons]
      omega
    | none =>
      rw [hcs] at h
      by_cases hsp : c = ' '
      · rw [if_pos hsp] at h
        injection h with h2
        simp [← h2]
      · rw [if_neg hsp] at h
        cases h

theorem splitEndPos_le (opts : ChunkOptions) (text : List Char) (s : Nat) :
    splitEndPos opts text s ≤ s + opts.maxChunkLength := by
  rw [splitEndPos]
  have h1 : min (s + opts.maxChunkLength) text.length ≤ s + opts.maxChunkLength :=
    min_le_left _ _
  split
  · cases hls : lastIndexOfSpace (substringJS text
        (min (s + opts.maxChunkLength) text.length - opts.maxChunkLength / 5)
        (min (s + opts.maxChunkLength) text.length)) with
    | none => exact h1
    | some p =>
      have hp := lastIndexOfSpace_lt _ p hls
      have hw := substringJS_length_le text
        (min (s + opts.maxChunkLength) text.length - opts.maxChunkLength / 5)
        (min (s + opts.maxChunkLength) text.length)
      simp only [Option.map_some', Option.getD_some]
      omega
  · exact h1

theorem splitChunkText_le (opts : ChunkOptions) (text : List Char) (s : Nat) :
    (splitChunkText opts text s).length ≤ opts.maxChunkLength := by
  rw [splitChunkText]
  calc (trimJS (substringJS text s (splitEndPos opts text s))).length
      ≤ (substringJS text s (splitEndPos opts text s)).length :=
        trimJS_length_le _
    _ ≤ splitEndPos opts text s - s := substringJS_length_le _ _ _
    _ ≤ opts.maxChunkLength := by
        have := splitEndPos_le opts text s
        omega

theorem splitLoop_bounds (opts : ChunkOptions) (ids : Nat → String) (text : List Char) :
    ∀ (fuel startPos position k : Nat) (c : TChunk),
      c ∈ splitLoop opts ids text fuel startPos position k →
      opts.minChunkLength ≤ c.text.length ∧ c.text.length ≤ opts.maxChunkLength := by
  intro fuel
  induction fuel with
  | zero => intro s pos k c hc; simp [splitLoop] at hc
  | succ fuel ih =>
    intro s pos k c hc
    rw [splitLoop] at hc
    split at hc
    · split at hc
      case isTrue hmin =>
        rcases List.mem_cons.mp hc with heq | hmem
        · subst heq
          exact ⟨hmin, splitChunkText_le opts text s⟩
        · exact ih _ _ _ c hmem
      case isFalse hmin =>
        exact ih _ _ _ c hc
    · simp at hc

theorem splitTextIntoChunks_bounds (opts : ChunkOptions) (ids : Nat → String)
    (text : List Char) (k : Nat) (c : TChunk)
    (hc : c ∈ splitTextIntoChunks opts ids text k) :
    opts.minChunkLength ≤ c.text.length ∧ c.text.length ≤ opts.maxChunkLength := by
  rw [splitTextIntoChunks] at hc
  split at hc
  case isTrue hmax =>
    split at hc
    case isTrue hmin =>
      rcases List.mem_singleton.mp hc with heq
      subst heq
      exact ⟨hmin, hmax⟩
    case isFalse hmin => simp at hc
  case isFalse hmax =>
    exact splitLoop_bounds opts ids text _ _ _ _ c hc

theorem processGroup_bounds (opts : ChunkOptions) (ids : Nat → String)
    (group : List RawChunk) (k : Nat) (c : TChunk)
    (hc : c ∈ processGroup opts ids group k) :
    opts.minChunkLength ≤ c.text.length ∧ c.text.length ≤ opts.maxChunkLength := by
  match group with
  | [] => simp [processGroup] at hc
  | [r] => exact splitTextIntoChunks_bounds opts ids r.text k c hc
  | r :: r2 :: rest =>
    rw [processGroup] at hc
    split at hc
    case isTrue hmax =>
      exact splitTextIntoChunks_bounds opts ids _ k c hc
    case isFalse hmax =>
      split at hc
      case isTrue hmin =>
        rcases List.mem_singleton.mp hc with heq
        have htext : c.text = joinSpace ((r :: r2 :: rest).map (fun r => r.text)) := by
          rw [heq]
        rw [htext]
        exact ⟨hmin, by omega⟩
      case isFalse hmin => simp at hc

theorem processKeys_bounds (opts : ChunkOptions) (ids : Nat → String)
    (raw : List RawChunk) :
    ∀ (keys : List String) (k : Nat) (c : TChunk),
      c ∈ processKeys opts ids raw keys k →
      opts.minChunkLength ≤ c.text.length ∧ c.text.length ≤ opts.maxChunkLength := by
  intro keys
  induction keys with
  | nil => intro k c hc; simp [processKeys] at hc
  | cons p ps ih =>
    intro k c hc
    rw [processKeys] at hc
    rcases List.mem_append.mp hc with hmem | hmem
    · exact processGroup_bounds opts ids _ k c hmem
    · exact ih _ c hmem

/-- C4: every chunk produced by processChunks, and hence by the full
segmenter extractTextChunks, has text length between minChunkLength and
maxChunkLength inclusive; no chunk, not even a final remainder of a split
run, falls outside the bounds (short remainders are discarded rather than
emitted). -/
theorem chunk_length_bounds :
    (∀ (opts : ChunkOptions) (ids : Nat → String) (raw : List RawChunk) (k : Nat),
      ∀ c ∈ processChunks opts ids raw k,
        opts.minChunkLength ≤ c.text.length ∧ c.text.length ≤ opts.maxChunkLength) ∧
    (∀ (opts : ChunkOptions) (ids : Nat → String) (snap : List SnapElem) (k : Nat),
      ∀ c ∈ extractTextChunks opts ids snap k,
        opts.minChunkLength ≤ c.text.length ∧ c.text.length ≤ opts.maxChunkLength) := by
  have hmain : ∀ (opts : ChunkOptions) (ids : Nat → String) (raw : List RawChunk) (k : Nat),
      ∀ c ∈ processChunks opts ids raw k,
        opts.minChunkLength ≤ c.text.length ∧ c.text.length ≤ opts.maxChunkLength := by
    intro opts ids raw k c hc
    exact processKeys_bounds opts ids raw _ k c hc
  exact ⟨hmain, fun opts ids snap k c hc => hmain opts ids _ k c hc⟩

/-- Witness for C4 at a concrete one-paragraph snapshot. -/
theorem chunk_length_bounds_witness :
    (⟨"chunk-100-aaaaaaaaa", List.replicate 60 'a', 0⟩ : TChunk) ∈
      extractTextChunks defaultChunkOptions idsA snapOne 0 ∧
    defaultChunkOptions.minChunkLength ≤ (List.replicate 60 'a').length ∧
    (List.replicate 60 'a').length ≤ defaultChunkOptions.maxChunkLength := by
  have hmem : (⟨"chunk-100-aaaaaaaaa", List.replicate 60 'a', 0⟩ : TChunk) ∈
      extractTextChunks defaultChunkOptions idsA snapOne 0 := by decide
  have := chunk_length_bounds.2 defaultChunkOptions idsA snapOne 0 _ hmem
  exact ⟨hmem, this⟩

theorem substringJS_length_le_right (l : List Char) (a b : Nat) :
    (substringJS l a b).length ≤ l.length - a := by
  rw [substringJS]
  calc ((l.drop a).take (b - a)).length ≤ (l.drop a).length := by
        rw [List.length_take]
        exact min_le_right _ _
    _ = l.length - a := List.length_drop a l

theorem splitLoop_nil_of_short (opts : ChunkOptions) (ids : Nat → String)
    (text : List Char) (h : text.length < opts.minChunkLength) :
    ∀ (fuel s pos k : Nat), splitLoop opts ids text fuel s pos k = [] := by
  intro fuel
  induction fuel with
  | zero => intro s pos k; rfl
  | succ fuel ih =>
    intro s pos k
    rw [splitLoop]
    by_cases hs : s < text.length
    · rw [if_pos hs]
      have hshort : (splitChunkText opts text s).length < opts.minChunkLength := by
        have h1 : (splitChunkText opts text s).length ≤
            (substringJS text s (splitEndPos opts text s)).length := trimJS_length_le _
        have h2 := substringJS_length_le_right text s (splitEndPos opts text s)
        omega
      rw [if_neg (by omega)]
      exact ih _ _ _
    · rw [if_neg hs]

/-- C9 (amended): every fragment shorter than minChunkLength is discarded,
including the sole fragment of its source; in particular a source whose
entire qualifying text is shorter than minChunkLength yields no chunk at
all. -/
theorem short_fragments_always_discarded :
    (∀ (opts : ChunkOptions) (ids : Nat → String) (raw : List RawChunk) (k : Nat),
      ∀ c ∈ processChunks opts ids raw k, opts.minChunkLength ≤ c.text.length) ∧
    (∀ (opts : ChunkOptions) (ids : Nat → String) (text : List Char) (k : Nat),
      text.length < opts.minChunkLength → splitTextIntoChunks opts ids text k = []) := by
  constructor
  · intro opts ids raw k c hc
    exact (processKeys_bounds opts ids raw _ k c hc).1
  · intro opts ids text k h
    rw [splitTextIntoChunks]
    split
    · rw [if_neg (by omega)]
    · exact splitLoop_nil_of_short opts ids text h _ _ _ _

/-- Witness for C9 (amended) at the five-character text short. -/
theorem short_fragments_always_discarded_witness :
    ("short".data.length < defaultChunkOptions.minChunkLength) ∧
    splitTextIntoChunks defaultChunkOptions idsA "short".data 0 = [] :=
  ⟨by decide,
    short_fragments_always_discarded.2 defaultChunkOptions idsA "short".data 0 (by decide)⟩

/-- Counterexample for C9 as frozen: a source whose entire qualifying text
(short, 5 characters) is below the default minChunkLength of 50 yields no
chunk at all, not one kept sole fragment. -/
theorem processChunks_discards_sole_short :
    0 < shortRaw.text.length ∧
    shortRaw.text.length < defaultChunkOptions.minChunkLength ∧
    processChunks defaultChunkOptions idsA [shortRaw] 0 = [] := by
  decide

theorem splitLoop_strip (opts : ChunkOptions) (text : List Char)
    (ids1 ids2 : Nat → String) :
    ∀ (fuel s pos k1 k2 : Nat),
      (splitLoop opts ids1 text fuel s pos k1).map stripIdPos =
      (splitLoop opts ids2 text fuel s pos k2).map stripIdPos := by
  intro fuel
  induction fuel with
  | zero => intro s pos k1 k2; rfl
  | succ fuel ih =>
    intro s pos k1 k2
    rw [splitLoop, splitLoop]
    by_cases hs : s < text.length
    · rw [if_pos hs, if_pos hs]
      by_cases hm : opts.minChunkLength ≤ (splitChunkText opts text s).length
      · rw [if_pos hm, if_pos hm]
        simp only [List.map_cons, stripIdPos]
        exact congrArg _ (ih _ _ _ _)
      · rw [if_neg hm, if_neg hm]
        exact ih _ _ _ _
    · rw [if_neg hs, if_neg hs]

theorem splitTextIntoChunks_strip (opts : ChunkOptions) (text : List Char)
    (ids1 ids2 : Nat → String) (k1 k2 : Nat) :
    (splitTextIntoChunks opts ids1 text k1).map stripIdPos =
    (splitTextIntoChunks opts ids2 text k2).map stripIdPos := by
  rw [splitTextIntoChunks, splitTextIntoChunks]
  by_cases hmax : text.length ≤ opts.maxChunkLength
  · rw [if_pos hmax, if_pos hmax]
    by_cases hmin : opts.minChunkLength ≤ text.length
    · rw [if_pos hmin, if_pos hmin]
      simp [stripIdPos]
    · rw [if_neg hmin, if_neg hmin]
  · rw [if_neg hmax, if_neg hmax]
    exact splitLoop_strip opts text ids1 ids2 _ _ _ _ _

theorem processGroup_strip (opts : ChunkOptions) (group : List RawChunk)
    (ids1 ids2 : Nat → String) (k1 k2 : Nat) :
    (processGroup opts ids1 group k1).map stripIdPos =
    (processGroup opts ids2 group k2).map stripIdPos := by
  match group with
  | [] => rfl
  | [c] => exact splitTextIntoChunks_strip opts c.text ids1 ids2 k1 k2
  | c :: c2 :: rest =>
    rw [processGroup, processGroup]
    by_cases hmax : opts.maxChunkLength <
        (joinSpace ((c :: c2 :: rest).map (fun r => r.text))).length
    · rw [if_pos hmax, if_pos hmax]
      exact splitTextIntoChunks_strip opts _ ids1 ids2 k1 k2
    · rw [if_neg hmax, if_neg hmax]
      by_cases hmin : opts.minChunkLength ≤
          (joinSpace ((c :: c2 :: rest).map (fun r => r.text))).length
      · rw [if_pos hmin, if_pos hmin]
        simp [stripIdPos]
      · rw [if_neg hmin, if_neg hmin]

theorem processKeys_strip (opts : ChunkOptions) (raw : List RawChunk)
    (ids1 ids2 : Nat → String) :
    ∀ (keys : List String) (k1 k2 : Nat),
      (processKeys opts ids1 raw keys k1).map stripIdPos =
      (processKeys opts ids2 raw keys k2).map stripIdPos := by
  intro keys
  induction keys with
  | nil => intro k1 k2; rfl
  | cons p ps ih =>
    intro k1 k2
    rw [processKeys, processKeys]
    simp only [List.map_append]
    rw [processGroup_strip opts _ ids1 ids2 k1 k2, ih _ _]

/-- C8 (amended): given an unchanged snapshot and configuration, two
invocations of extractTextChunks produce the same number of chunks with
the same texts and positions in the same order; the ids, drawn from
Date.now and Math.random at generation time, are the only part of the
output not determined by the snapshot. -/
theorem extract_deterministic_modulo_ids :
    ∀ (opts : ChunkOptions) (snap : List SnapElem) (ids1 ids2 : Nat → String)
      (k1 k2 : Nat),
      (extractTextChunks opts ids1 snap k1).map stripIdPos =
      (extractTextChunks opts ids2 snap k2).map stripIdPos := by
  intro opts snap ids1 ids2 k1 k2
  rw [extractTextChunks, extractTextChunks, processChunks, processChunks]
  exact processKeys_strip opts _ ids1 ids2 _ k1 k2

/-- Counterexample for C8 as frozen: with the id stream advanced between
the two invocations, as Date.now and Math.random advance between
successive calls, the two outputs differ (in their ids), so repeated
output is not identical. -/
theorem extract_ids_differ :
    extractTextChunks defaultChunkOptions idsA snapOne 0 ≠
    extractTextChunks defaultChunkOptions idsB snapOne 0 := by
  decide

theorem textContentList_append : ∀ xs ys : List DNode,
    textContentList (xs ++ ys) = textContentList xs ++ textContentList ys := by
  intro xs ys
  induction xs with
  | nil => simp [textContentList]
  | cons c cs ih => simp [textContentList, ih]

theorem take_mid_drop (s : List Char) (a b : Nat) (hab : a ≤ b) (hb : b ≤ s.length) :
    s.take a ++ (s.drop a).take (b - a) ++ s.drop b = s := by
  have h3 : (s.drop a).drop (b - a) = s.drop b := by
    rw [List.drop_drop]
    congr 1
    omega
  calc s.take a ++ (s.drop a).take (b - a) ++ s.drop b
      = s.take a ++ ((s.drop a).take (b - a) ++ (s.drop a).drop (b - a)) := by
        rw [h3, List.append_assoc]
    _ = s.take a ++ s.drop a := by rw [List.take_append_drop]
    _ = s := List.take_append_drop _ _

theorem tc_spliceText (a b : Nat) (n : DNode) :
    textContentList (spliceText a b n) = textContent n := by
  cases n with
  | text s =>
    rw [spliceText]
    split
    case isTrue h =>
      simp only [textContentList, textContent, List.append_nil]
      rw [← List.append_assoc]
      exact take_mid_drop s a b h.1 h.2
    case isFalse h =>
      simp [textContentList, textContent]
  | elem t cls cs =>
    simp [spliceText, textContentList]

mutual
theorem tc_highlightNode (a b : Nat) : ∀ (n : DNode) (p : List Nat),
    textContent (highlightNode a b n p) = textContent n
  | n, [] => by cases n <;> simp [highlightNode]
  | .text s, _ :: _ => by simp [highlightNode]
  | .elem t cls cs, i :: rest => by
    rw [highlightNode]
    simp only [textContent]
    exact tc_highlightChildren a b cs i rest
theorem tc_highlightChildren (a b : Nat) : ∀ (cs : List DNode) (i : Nat) (p : List Nat),
    textContentList (highlightChildren a b cs i p) = textContentList cs
  | [], _, _ => by simp [highlightChildren]
  | c :: cs, 0, [] => by
    rw [highlightChildren, textContentList_append, tc_spliceText a b c]
    rfl
  | c :: cs, 0, j :: rest => by
    rw [highlightChildren]
    simp only [textContentList]
    rw [tc_highlightNode a b c (j :: rest)]
  | c :: cs, i + 1, p => by
    rw [highlightChildren]
    simp only [textContentList]
    rw [tc_highlightChildren a b cs i p]
end

mutual
theorem tc_modifyClassesAt (f : List String → List String) : ∀ (n : DNode) (p : List Nat),
    textContent (modifyClassesAt f n p) = textContent n
  | .text s, _ => by simp [modifyClassesAt]
  | .elem t cls cs, [] => by simp [modifyClassesAt, textContent]
  | .elem t cls cs, i :: rest => by
    rw [modifyClassesAt]
    simp only [textContent]
    exact tc_modifyClassesChildren f cs i rest
theorem tc_modifyClassesChildren (f : List String → List String) :
    ∀ (cs : List DNode) (i : Nat) (p : List Nat),
      textContentList (modifyClassesChildren f cs i p) = textContentList cs
  | [], _, _ => by simp [modifyClassesChildren]
  | c :: cs, 0, rest => by
    rw [modifyClassesChildren]
    simp only [textContentList]
    rw [tc_modifyClassesAt f c rest]
  | c :: cs, i + 1, rest => by
    rw [modifyClassesChildren]
    simp only [textContentList]
    rw [tc_modifyClassesChildren f cs i rest]
end

mutual
theorem tc_removeAllNode : ∀ n : DNode,
    textContentList (removeAllNode n) = textContent n
  | .text s => by simp [removeAllNode, textContentList, textContent]
  | .elem t cls cs => by
    rw [removeAllNode]
    split
    · exact tc_removeAllList cs
    · simp only [textContentList, textContent, List.append_nil]
      exact tc_removeAllList cs
theorem tc_removeAllList : ∀ cs : List DNode,
    textContentList (removeAllList cs) = textContentList cs
  | [] => rfl
  | c :: cs => by
    rw [removeAllList, textContentList_append, tc_removeAllNode c, tc_removeAllList cs]
    rfl
end

theorem tc_applyOp (o : HOp) (d : DNode) : textContent (applyOp o d) = textContent d := by
  cases o with
  | highlight p a b => exact tc_highlightNode a b d p
  | addActive p => exact tc_modifyClassesAt _ d p
  | removeActive p => exact tc_modifyClassesAt _ d p

theorem tc_applyOps : ∀ (ops : List HOp) (d : DNode),
    textContent (applyOps ops d) = textContent d := by
  intro ops
  induction ops with
  | nil => intro d; rfl
  | cons o os ih =>
    intro d
    have hstep : applyOps (o :: os) d = applyOps os (applyOp o d) := rfl
    rw [hstep, ih (applyOp o d), tc_applyOp o d]

/-- C7: a highlight wraps exactly the matched character range in a span
carrying the highlight class, with the untouched prefix and suffix of the
text node flanking it, and no operation changes the textContent of the
tree; after any sequence of highlight and navigation operations, removing
all highlights yields a tree whose textContent equals the pre-highlight
baseline exactly. -/
theorem highlight_roundtrip :
    (∀ (d : DNode) (ops : List HOp),
      textContent (applyOps ops d) = textContent d ∧
      textContentList (removeAllNode (applyOps ops d)) = textContent d) ∧
    (∀ (s : List Char) (a b : Nat), a ≤ b → b ≤ s.length →
      spliceText a b (.text s) =
        [.text (s.take a),
         .elem "span" [hlClass] [.text ((s.drop a).take (b - a))],
         .text (s.drop b)] ∧
      s.take a ++ (s.drop a).take (b - a) ++ s.drop b = s) := by
  constructor
  · intro d ops
    refine ⟨tc_applyOps ops d, ?_⟩
    rw [tc_removeAllNode (applyOps ops d), tc_applyOps ops d]
  · intro s a b hab hb
    refine ⟨?_, take_mid_drop s a b hab hb⟩
    rw [spliceText, if_pos ⟨hab, hb⟩]

/-- Witness for C7 at the text hello world with the range of world. -/
theorem highlight_roundtrip_witness :
    ((6 : Nat) ≤ 11 ∧ 11 ≤ "hello world".data.length) ∧
    "hello world".data.take 6 ++ ("hello world".data.drop 6).take (11 - 6) ++
      "hello world".data.drop 11 = "hello world".data :=
  ⟨⟨by decide, by decide⟩,
    (highlight_roundtrip.2 "hello world".data 6 11 (by decide) (by decide)).2⟩
